import Mathlib

/-!
Verification of the pykanban column-management data layer.

The definitions below are a shallow embedding of `src/pykanban/database.py`
(classes `SQLiteManager` and `KanbanDatabaseManager`) and of the drag-and-drop
handlers in `src/pykanban/tabs.py` (`KanbanColumnContainer`).

A database state is the list of rows of the single `Columns` table, in rowid
(insertion) order.  The schema declares `"Order" INTEGER NOT NULL UNIQUE` and a
partial unique index on `Name WHERE deletion_date IS NULL`; SQLite enforces the
UNIQUE constraint per row, in rowid order, while an UPDATE statement runs, so
the embedding of UPDATE checks uniqueness the same way (`applyShiftGo`).
A failing statement leaves the table unchanged, and every multi-step operation
of `KanbanDatabaseManager` rolls the whole transaction back on the first
failing step, so each operation either returns the fully updated state or the
original one.
-/

namespace PyKanban

/-- The `DatabaseStatus` enum from `database.py`. -/
inductive DatabaseStatus where
  | OPEN
  | CLOSED
  | ERROR
deriving DecidableEq, Repr

/-- The `QueryResult.data` payload is dynamically typed in Python: operations
put either a `DatabaseStatus` tag or an operation-specific value in it. -/
inductive QData (α : Type) where
  | status : DatabaseStatus → QData α
  | res : α → QData α
deriving DecidableEq, Repr

/-- The `QueryResult` dataclass from `database.py`. -/
structure QueryResult (α : Type) where
  success : Bool
  data : QData α
  message : String
deriving DecidableEq, Repr

/-- One row of the `Columns` table (columns of the schema created by
`initialize_database`; `deleted` models `deletion_date IS NOT NULL`). -/
structure KRow where
  name : String
  order : Int
  number : Int
  columnColor : String
  textColor : String
  deleted : Bool
deriving DecidableEq, Repr

/-- The `Columns` table: rows in rowid (insertion) order. -/
abbrev DBState := List KRow

/-- Rows with `deletion_date IS NULL`. -/
def activeRows (s : DBState) : DBState :=
  s.filter (fun r => !r.deleted)

/-- The `"Order"` values of all rows (soft-deleted included). -/
def ordersOf (s : DBState) : List Int :=
  s.map (fun r => r.order)

/-- Names of active rows (the set constrained by the partial unique index
`idx_active_column_names`). -/
def activeNames (s : DBState) : List String :=
  (activeRows s).map (fun r => r.name)

/-- Models `SELECT MAX("Order") FROM Columns` — over all rows; `none` models the SQL
NULL returned on an empty table. -/
def maxOrderAllOpt (s : DBState) : Option Int :=
  (ordersOf s).max?

/-- Models `SELECT MAX("Order") FROM Columns WHERE deletion_date IS NULL`. -/
def activeMaxOpt (s : DBState) : Option Int :=
  (ordersOf (activeRows s)).max?

/-- First row of `SELECT ... FROM Columns WHERE Name = n AND deletion_date IS
NULL` in rowid order (`query_result.next()` reads the first row). -/
def findFirstActive (s : DBState) (n : String) : Option KRow :=
  (s.filter (fun r => r.name == n && !r.deleted)).head?

/-- Insertion step for `ORDER BY "Order"`. -/
def insertByOrder (r : KRow) : DBState → DBState
  | [] => [r]
  | x :: xs => if r.order ≤ x.order then r :: x :: xs else x :: insertByOrder r xs

/-- Sort rows by `"Order"` (`ORDER BY "Order"`). -/
def sortByOrder : DBState → DBState
  | [] => []
  | x :: xs => insertByOrder x (sortByOrder xs)

/-- Models `UPDATE Columns SET "Order" = g("Order") WHERE pred` as SQLite runs it:
rows are visited in rowid order; as each matching row is rewritten the UNIQUE
constraint on `"Order"` is checked against every other row's current value,
and a violation aborts the whole statement (`none`).  `acc` is the already
visited prefix, the second list the rows still to visit. -/
def applyShiftGo (pred : KRow → Bool) (g : Int → Int) :
    DBState → DBState → Option DBState
  | acc, [] => some acc
  | acc, r :: rest =>
    if pred r then
      if (acc ++ rest).all (fun x => x.order != g r.order) then
        applyShiftGo pred g (acc ++ [{ r with order := g r.order }]) rest
      else
        none
    else
      applyShiftGo pred g (acc ++ [r]) rest

/-- Run an order-rewriting UPDATE statement on the whole table. -/
def applyShift (pred : KRow → Bool) (g : Int → Int) (s : DBState) :
    Option DBState :=
  applyShiftGo pred g [] s

/-- The per-row effect of an order-rewriting UPDATE, ignoring the constraint
check: used to characterise the table a *successful* statement produces. -/
def updRow (pred : KRow → Bool) (g : Int → Int) (r : KRow) : KRow :=
  if pred r then { r with order := g r.order } else r

end PyKanban

namespace PyKanban

/-- Models `KanbanDatabaseManager.load_columns`: active rows ordered by `"Order"`,
projected to `(Name, Number, ColumnColor, TextColor)`. -/
def load_columns (s : DBState) : List (String × Int × String × String) :=
  (sortByOrder (activeRows s)).map
    (fun r => (r.name, r.number, r.columnColor, r.textColor))

/-- Models `KanbanDatabaseManager.get_max_order`: active maximum with the Python
`if not max_order: max_order = 0` coercion of SQL NULL (and 0) to 0. -/
def get_max_order (s : DBState) : QueryResult Int :=
  let mo : Int :=
    match activeMaxOpt s with
    | none => 0
    | some m => if m = 0 then 0 else m
  ⟨true, QData.res mo, "Maximum order retrieved successfully"⟩

/-- The scalar value carried by `get_max_order`. -/
def get_max_order_val (s : DBState) : Int :=
  match activeMaxOpt s with
  | none => 0
  | some m => if m = 0 then 0 else m

/-- Models `KanbanDatabaseManager.get_order_for_new_column`: reads the active
"Complete" row's order, runs `UPDATE Columns SET "Order" = "Order" + 1 WHERE
Name = 'Complete'`, commits, and returns the vacated order value.  On any
failing step the transaction is rolled back, so the original state is
returned. -/
def get_order_for_new_column (s : DBState) :
    QueryResult (Option Int) × DBState :=
  match findFirstActive s "Complete" with
  | none => (⟨false, QData.res none, "Complete column not found"⟩, s)
  | some rc =>
    match applyShift (fun r => r.name == "Complete") (fun o => o + 1) s with
    | none => (⟨false, QData.res none, "Failed to get order for new column"⟩, s)
    | some s' =>
      (⟨true, QData.res (some rc.order), "Order value retrieved successfully"⟩, s')

/-- Models `KanbanDatabaseManager.add_column`: rejects an empty name, then runs a
single INSERT; the INSERT fails on the UNIQUE `"Order"` constraint or the
partial unique index on active names, otherwise appends the row. -/
def add_column (s : DBState) (name : String) (order : Int)
    (column_color : String := "#b8daff") (text_color : String := "#000000") :
    QueryResult Unit × DBState :=
  if name == "" then
    (⟨false, QData.res (), "Column name cannot be empty"⟩, s)
  else if (ordersOf s).contains order then
    (⟨false, QData.res (), "Failed to create column: UNIQUE constraint failed"⟩, s)
  else if (activeNames s).contains name then
    (⟨false, QData.res (), "Failed to create column: UNIQUE constraint failed"⟩, s)
  else
    (⟨true, QData.res (), "Column " ++ name ++ " created successfully"⟩,
      s ++ [⟨name, order, 0, column_color, text_color, false⟩])

/-- Models `KanbanDatabaseManager.reorder_column`: rejects the two sentinels, reads
`MAX("Order")` over all rows, rejects `new_order <= 1` (checked first by
Python's short-circuit `or`) and `new_order >= max_order` (a comparison with
the NULL of an empty table raises, which the `except` arm turns into the same
rolled-back failure), then runs `UPDATE Columns SET "Order" = ? WHERE
Name = ?`. -/
def reorder_column (s : DBState) (column_name : String) (new_order : Int) :
    QueryResult Unit × DBState :=
  if column_name == "Ready to Start" || column_name == "Complete" then
    (⟨false, QData.res (), "Cannot reorder fixed column: " ++ column_name⟩, s)
  else if new_order ≤ 1 then
    (⟨false, QData.res (),
      "Cannot move column before Ready to Start or after Complete"⟩, s)
  else
    match maxOrderAllOpt s with
    | none => (⟨false, QData.res (), "Failed to reorder column"⟩, s)
    | some max_order =>
      if new_order ≥ max_order then
        (⟨false, QData.res (),
          "Cannot move column before Ready to Start or after Complete"⟩, s)
      else
        match applyShift (fun r => r.name == column_name) (fun _ => new_order) s with
        | none => (⟨false, QData.res (), "Failed to reorder column"⟩, s)
        | some s' =>
          (⟨true, QData.res (),
            "Column " ++ column_name ++ " reordered successfully"⟩, s')

/-- Per-row effect of `soft_delete_column`'s first UPDATE:
`SET deletion_date = CURRENT_TIMESTAMP WHERE Name = ? AND deletion_date IS
NULL`. -/
def flagRow (n : String) (r : KRow) : KRow :=
  if r.name == n && !r.deleted then { r with deleted := true } else r

/-- Per-row effect of `soft_delete_column`'s second UPDATE:
`SET "Order" = "Order" - 1 WHERE "Order" > d AND deletion_date IS NULL AND
Name != 'Complete'`. -/
def softDecRow (d : Int) (r1 : KRow) : KRow :=
  if (!r1.deleted && decide (d < r1.order)) && r1.name != "Complete" then
    { r1 with order := r1.order - 1 }
  else r1

/-- Per-row effect of `soft_delete_column`'s two UPDATE statements on a row,
for a deleted column of order `d` named `n`: first the flagging UPDATE, then
the conditional decrement of active rows above `d` other than "Complete". -/
def softDeleteRowUpd (n : String) (d : Int) (r : KRow) : KRow :=
  softDecRow d (flagRow n r)

/-- Models `KanbanDatabaseManager.soft_delete_column`: rejects the sentinels, reads
the column's active order, sets `deletion_date` for the active rows of that
name, then decrements `"Order"` of every still-active row with a greater
order except "Complete"; any failing statement (for instance a UNIQUE
violation during the decrement) rolls the whole transaction back. -/
def soft_delete_column (s : DBState) (column_name : String) :
    QueryResult Unit × DBState :=
  if column_name == "Ready to Start" || column_name == "Complete" then
    (⟨false, QData.res (), "Cannot delete fixed columns"⟩, s)
  else
    match findFirstActive s column_name with
    | none => (⟨false, QData.res (), "Column not found"⟩, s)
    | some rd =>
      match applyShift
          (fun r => (!r.deleted && decide (rd.order < r.order)) && r.name != "Complete")
          (fun o => o - 1) (s.map (flagRow column_name)) with
      | none => (⟨false, QData.res (), "Failed to delete column"⟩, s)
      | some s2 => (⟨true, QData.res (), "Column deleted successfully"⟩, s2)

/-- Per-row effect of `update_column_color`'s UPDATE. -/
def colorUpd (column_name color_type color : String) (r : KRow) : KRow :=
  if r.name == column_name then
    if color_type == "ColumnColor" then { r with columnColor := color }
    else { r with textColor := color }
  else r

/-- Models `KanbanDatabaseManager.update_column_color`: rejects a `color_type`
outside {ColumnColor, TextColor} before touching SQL, then runs
`UPDATE Columns SET <color_type> = ? WHERE Name = ?` — every row of that
name, soft-deleted ones included; zero matched rows is still a success. -/
def update_column_color (s : DBState) (column_name color_type color : String) :
    QueryResult Unit × DBState :=
  if !(color_type == "ColumnColor" || color_type == "TextColor") then
    (⟨false, QData.res (), "Invalid color type specified"⟩, s)
  else
    (⟨true, QData.res (), "Column color updated successfully"⟩,
      s.map (colorUpd column_name color_type color))

/-- The three rows seeded by `initialize_database`. -/
def initRows : DBState :=
  [⟨"Ready to Start", 1, 0, "#b8daff", "#000000", false⟩,
   ⟨"In Progress", 2, 0, "#b8daff", "#000000", false⟩,
   ⟨"Complete", 3, 0, "#b8daff", "#000000", false⟩]

/-- The `SQLiteManager` connection state, generic in the database contents `α`:
`isOpen` is `con.isOpen()`, `canOpen` whether the underlying driver `open()`
call would succeed (an existing, readable database file), `db` the committed
contents, and `txn` the snapshot taken by an open transaction (`none` = no
transaction in progress; `QSqlDatabase.transaction`/`commit`/`rollback` fail
when called in the wrong phase). -/
structure SQLiteConn (α : Type) where
  isOpen : Bool
  canOpen : Bool
  db : α
  txn : Option α
deriving DecidableEq, Repr

/-- Models `SQLiteManager.open_db`. -/
def open_db {α : Type} (c : SQLiteConn α) : QueryResult Unit × SQLiteConn α :=
  if c.isOpen then
    (⟨false, QData.status DatabaseStatus.OPEN, "database is already open"⟩, c)
  else if !c.canOpen then
    (⟨false, QData.status DatabaseStatus.ERROR, "database does not exist"⟩, c)
  else
    (⟨true, QData.status DatabaseStatus.OPEN, "database successfully opened"⟩,
      { c with isOpen := true })

/-- Models `SQLiteManager.close_db`. -/
def close_db {α : Type} (c : SQLiteConn α) : QueryResult Unit × SQLiteConn α :=
  if !c.isOpen then
    (⟨false, QData.status DatabaseStatus.CLOSED, "database is not open"⟩, c)
  else
    (⟨true, QData.status DatabaseStatus.CLOSED, "database successfully closed"⟩,
      { c with isOpen := false })

/-- Models `SQLiteManager.begin_transaction`. -/
def begin_transaction {α : Type} (c : SQLiteConn α) :
    QueryResult α × SQLiteConn α :=
  if !c.isOpen then
    (⟨false, QData.status DatabaseStatus.CLOSED, "database not open"⟩, c)
  else if c.txn.isSome then
    (⟨false, QData.status DatabaseStatus.ERROR, "Failed to start transaction"⟩, c)
  else
    (⟨true, QData.status DatabaseStatus.OPEN, "Transaction started"⟩,
      { c with txn := some c.db })

/-- Models `SQLiteManager.commit_transaction`. -/
def commit_transaction {α : Type} (c : SQLiteConn α) :
    QueryResult α × SQLiteConn α :=
  if !c.isOpen then
    (⟨false, QData.status DatabaseStatus.CLOSED, "database not open"⟩, c)
  else if c.txn.isNone then
    (⟨false, QData.status DatabaseStatus.ERROR, "Failed to commit transaction"⟩, c)
  else
    (⟨true, QData.status DatabaseStatus.OPEN, "Transaction committed"⟩,
      { c with txn := none })

/-- Models `SQLiteManager.rollback_transaction`. -/
def rollback_transaction {α : Type} (c : SQLiteConn α) :
    QueryResult α × SQLiteConn α :=
  if !c.isOpen then
    (⟨false, QData.status DatabaseStatus.CLOSED, "database not open"⟩, c)
  else
    match c.txn with
    | none =>
      (⟨false, QData.status DatabaseStatus.ERROR, "Failed to rollback transaction"⟩, c)
    | some snap =>
      (⟨true, QData.status DatabaseStatus.OPEN, "Transaction rolled back"⟩,
        { c with db := snap, txn := none })

/-- Models `SQLiteManager.execute_query`.  A prepared statement is modelled as a
function `q` from database contents to `Except`: `.error e` is a failing
`exec()` with driver error text `e` (the statement leaves the contents
untouched), `.ok d` a successful one producing contents `d`. -/
def execute_query {α : Type} (q : α → Except String α) (c : SQLiteConn α) :
    QueryResult α × SQLiteConn α :=
  if !c.isOpen then
    (⟨false, QData.status DatabaseStatus.CLOSED, "database not open"⟩, c)
  else
    match q c.db with
    | Except.error e => (⟨false, QData.status DatabaseStatus.ERROR, e⟩, c)
    | Except.ok d =>
      (⟨true, QData.res d, "Query executed successfully"⟩, { c with db := d })

/-- Models `SQLiteManager.safe_execute_query`: begin, execute once, commit; on an
execute or commit failure roll back and return that step's result; on a begin
failure return it directly. -/
def safe_execute_query {α : Type} (q : α → Except String α) (c : SQLiteConn α) :
    QueryResult α × SQLiteConn α :=
  let br := begin_transaction c
  if !br.1.success then br
  else
    let qr := execute_query q br.2
    if !qr.1.success then
      let rb := rollback_transaction qr.2
      (qr.1, rb.2)
    else
      let cr := commit_transaction qr.2
      if !cr.1.success then
        let rb := rollback_transaction cr.2
        (cr.1, rb.2)
      else
        (qr.1, cr.2)

/-- In-memory drag state of `KanbanColumnContainer` (`tabs.py`): the
`column_order` dictionary (as an association list), the column being dragged,
and the copy of the order saved by `dragEnterEvent`
(`original_column_order` is only an attribute once a drag has entered, hence
the `Option`). -/
structure DragUI where
  column_order : List (String × Int)
  dragged_column : Option String
  original_column_order : Option (List (String × Int))
deriving DecidableEq, Repr

/-- State effects of `KanbanColumnContainer.dragEnterEvent`: for a textual
mime payload naming a non-fixed column the drag is accepted, the dragged
column recorded and a copy of the current order saved; otherwise the event is
ignored and nothing changes. -/
def dragEnterEvent (ui : DragUI) (mime : Option String) : DragUI :=
  match mime with
  | none => ui
  | some column_name =>
    if column_name == "Ready to Start" || column_name == "Complete" then ui
    else
      { ui with
        dragged_column := some column_name,
        original_column_order := some ui.column_order }

/-- Models `KanbanColumnContainer.dropEvent`: never touches the database manager;
resets `column_order` to `original_column_order` when that attribute exists,
clears `dragged_column`, and ignores the drop.  The persisted table is passed
through untouched, exactly as the handler leaves it. -/
def dropEvent (ui : DragUI) (table : DBState) : DragUI × DBState :=
  ({ ui with
      column_order :=
        match ui.original_column_order with
        | some o => o
        | none => ui.column_order,
      dragged_column := none },
    table)

/-- Models `KanbanDatabaseManager.initialize_database` over
`Option DBState` (`none` = fresh file, no `Columns` table yet): inside one
transaction it creates the table and index and inserts the three default
rows; on a non-fresh database the `CREATE TABLE` statement fails and the
transaction is rolled back, returning that step's failure with the database
unchanged. -/
def init_database : Option DBState → QueryResult Unit × Option DBState
  | some t =>
    (⟨false, QData.status DatabaseStatus.ERROR,
      "Failed to create Columns table: table Columns already exists"⟩, some t)
  | none =>
    (⟨true, QData.res (), "Kanban database schema created successfully"⟩,
      some initRows)

/-- Runs `add_column` with the order obtained from `get_order_for_new_column`, the
way the GUI creates a column: the first call commits on its own, then the
insert runs; the combined call counts as successful when both steps do. -/
def addColumnCombo (s : DBState) (name : String)
    (column_color : String := "#b8daff") (text_color : String := "#000000") :
    QueryResult Unit × DBState :=
  match get_order_for_new_column s with
  | (⟨true, QData.res (some k), _⟩, s1) => add_column s1 name k column_color text_color
  | (r, s1) => (⟨false, QData.res (), r.message⟩, s1)

/-- Database states reachable from `initialize_database`'s output by
successful `add_column`-with-`get_order_for_new_column`, `reorder_column`,
`soft_delete_column` and `update_column_color` calls. -/
inductive Reach : DBState → Prop where
  | init : Reach initRows
  | add (s : DBState) (name column_color text_color : String) : Reach s →
      (addColumnCombo s name column_color text_color).1.success = true →
      Reach (addColumnCombo s name column_color text_color).2
  | reorder (s : DBState) (n : String) (k : Int) : Reach s →
      (reorder_column s n k).1.success = true →
      Reach (reorder_column s n k).2
  | softDel (s : DBState) (n : String) : Reach s →
      (soft_delete_column s n).1.success = true →
      Reach (soft_delete_column s n).2
  | color (s : DBState) (n t c : String) : Reach s →
      (update_column_color s n t c).1.success = true →
      Reach (update_column_color s n t c).2

/-- The ordering invariant the code actually maintains on reachable states:
all `"Order"` values (soft-deleted rows included) are pairwise distinct — so
the active orders are strictly ascending when listed by `"Order"` — active
names are unique, "Ready to Start" is active at order 1 and every other row
sits strictly above it, and "Complete" is the unique row of its name, is
active, and sits strictly above every other row.  Contiguity of the active
orders is NOT part of this invariant. -/
def Inv (s : DBState) : Prop :=
  (ordersOf s).Nodup ∧
  (activeNames s).Nodup ∧
  (∃ r ∈ s, r.name = "Ready to Start" ∧ r.deleted = false ∧ r.order = 1) ∧
  (∀ r ∈ s, r.name ≠ "Ready to Start" → 2 ≤ r.order) ∧
  (∃ rc ∈ s, rc.name = "Complete" ∧ rc.deleted = false ∧
    (∀ x ∈ s, x.name = "Complete" → x.order = rc.order ∧ x.deleted = false) ∧
    (∀ x ∈ s, x.name ≠ "Complete" → x.order < rc.order))

instance : DecidablePred Inv := by
  intro s
  unfold Inv
  infer_instance

/-- The invariant claimed by the spec, following its words: the `Order`
values of the non-deleted columns form a contiguous ascending sequence
(1, 2, …, count), "Ready to Start" is active with the minimal order 1 and
"Complete" is active with the maximal order. -/
def specContiguousInv (s : DBState) : Prop :=
  ((sortByOrder (activeRows s)).map (fun r => r.order) =
    (List.range (activeRows s).length).map (fun i => (1 : Int) + i)) ∧
  (∃ r ∈ activeRows s, r.name = "Ready to Start" ∧ r.order = 1 ∧
    ∀ x ∈ activeRows s, r.order ≤ x.order) ∧
  (∃ r ∈ activeRows s, r.name = "Complete" ∧ ∀ x ∈ activeRows s, x.order ≤ r.order)

instance : DecidablePred specContiguousInv := by
  intro s
  unfold specContiguousInv
  infer_instance

end PyKanban

namespace PyKanban

/-! ### Supporting lemmas about the embedding -/

theorem max?_eq_some_of_mem_of_le {l : List Int} {b : Int} (h1 : b ∈ l)
    (h2 : ∀ a ∈ l, a ≤ b) : l.max? = some b := by
  haveI : Std.Antisymm (α := Int) (· ≤ ·) := ⟨le_antisymm⟩
  rw [List.max?_eq_some_iff]
  · exact ⟨h1, h2⟩
  all_goals simp [le_total]

/-- A successful order-rewriting UPDATE produces exactly the per-row rewrite
of the visited rows after the accumulated prefix. -/
theorem applyShiftGo_eq_map (pred : KRow → Bool) (g : Int → Int)
    (rest : DBState) : ∀ acc out : DBState,
    applyShiftGo pred g acc rest = some out →
      out = acc ++ rest.map (updRow pred g) := by
  induction rest with
  | nil =>
    intro acc out h
    simp only [applyShiftGo, Option.some.injEq] at h
    simp [h]
  | cons r rest ih =>
    intro acc out h
    cases hp : pred r with
    | true =>
      cases hc : (acc ++ rest).all (fun x => x.order != g r.order) with
      | true =>
        rw [applyShiftGo, hp, hc] at h
        simp only [if_true] at h
        have := ih (acc ++ [{ r with order := g r.order }]) out h
        simp only [List.map_cons, updRow, hp, if_true, List.append_assoc,
          List.singleton_append] at this ⊢
        exact this
      | false =>
        rw [applyShiftGo, hp, hc] at h
        simp at h
    | false =>
      rw [applyShiftGo, hp] at h
      simp only [Bool.false_eq_true, if_false] at h
      have := ih (acc ++ [r]) out h
      simp only [List.map_cons, updRow, hp, Bool.false_eq_true, if_false,
        List.append_assoc, List.singleton_append] at this ⊢
      exact this

/-- A successful order-rewriting UPDATE keeps the `"Order"` column free of
duplicates: this is exactly what the per-row UNIQUE check enforces. -/
theorem applyShiftGo_nodup (pred : KRow → Bool) (g : Int → Int)
    (rest : DBState) : ∀ acc out : DBState,
    (((acc ++ rest).map (fun r => r.order)).Nodup) →
    applyShiftGo pred g acc rest = some out →
      ((out.map (fun r => r.order)).Nodup) := by
  induction rest with
  | nil =>
    intro acc out hn h
    simp only [applyShiftGo, Option.some.injEq] at h
    simpa [← h] using hn
  | cons r rest ih =>
    intro acc out hn h
    cases hp : pred r with
    | true =>
      cases hc : (acc ++ rest).all (fun x => x.order != g r.order) with
      | true =>
        rw [applyShiftGo, hp, hc] at h
        simp only [if_true] at h
        refine ih (acc ++ [{ r with order := g r.order }]) out ?_ h
        have hmid : ((acc ++ [{ r with order := g r.order }]) ++ rest) =
            acc ++ ({ r with order := g r.order } :: rest) := by
          simp
        rw [hmid, List.map_append, List.map_cons]
        rw [List.nodup_middle]
        have hmid0 : (acc ++ (r :: rest)).map (fun x => x.order) =
            acc.map (fun x => x.order) ++ (r.order :: rest.map (fun x => x.order)) := by
          simp
        rw [hmid0] at hn
        have hn' := (List.nodup_middle).mp hn
        rw [List.nodup_cons] at hn'
        rw [List.nodup_cons]
        constructor
        · intro hmem
          rw [← List.map_append] at hmem
          obtain ⟨x, hx, hxo⟩ := List.mem_map.mp hmem
          have hall := List.all_eq_true.mp hc x hx
          simp only [bne_iff_ne, ne_eq] at hall
          exact hall (by simpa using hxo)
        · simpa using hn'.2
      | false =>
        rw [applyShiftGo, hp, hc] at h
        simp at h
    | false =>
      rw [applyShiftGo, hp] at h
      simp only [Bool.false_eq_true, if_false] at h
      refine ih (acc ++ [r]) out ?_ h
      simpa using hn

/-- A successful `applyShift` run gives the mapped table. -/
theorem applyShift_eq_map {pred : KRow → Bool} {g : Int → Int} {s out : DBState}
    (h : applyShift pred g s = some out) : out = s.map (updRow pred g) := by
  simpa using applyShiftGo_eq_map pred g s [] out h

/-- A successful `applyShift` run preserves distinctness of the `"Order"` column. -/
theorem applyShift_nodup {pred : KRow → Bool} {g : Int → Int} {s out : DBState}
    (hn : (s.map (fun r => r.order)).Nodup)
    (h : applyShift pred g s = some out) :
    (out.map (fun r => r.order)).Nodup := by
  refine applyShiftGo_nodup pred g s [] out ?_ h
  simpa using hn

end PyKanban

namespace PyKanban

/-- A per-row rewrite that keeps names and never clears `deletion_date` turns
the active-name list into a sublist of the original one. -/
theorem activeNames_map_sublist (u : KRow → KRow) (s : DBState)
    (hn : ∀ r, (u r).name = r.name)
    (hd : ∀ r, r.deleted = true → (u r).deleted = true) :
    (activeNames (s.map u)).Sublist (activeNames s) := by
  induction s with
  | nil => simp [activeNames, activeRows]
  | cons r rest ih =>
    cases hur : (u r).deleted with
    | true =>
      cases hr : r.deleted with
      | true =>
        simpa [activeNames, activeRows, List.filter_cons, hur, hr] using ih
      | false =>
        have h1 : activeNames ((r :: rest).map u) = activeNames (rest.map u) := by
          simp [activeNames, activeRows, List.filter_cons, hur]
        have h2 : activeNames (r :: rest) = r.name :: activeNames rest := by
          simp [activeNames, activeRows, List.filter_cons, hr]
        rw [h1, h2]
        exact ih.cons r.name
    | false =>
      have hr : r.deleted = false := by
        cases hrd : r.deleted with
        | false => rfl
        | true => rw [hd r hrd] at hur; cases hur
      have h1 : activeNames ((r :: rest).map u) =
          r.name :: activeNames (rest.map u) := by
        simp [activeNames, activeRows, List.filter_cons, hur, hn r]
      have h2 : activeNames (r :: rest) = r.name :: activeNames rest := by
        simp [activeNames, activeRows, List.filter_cons, hr]
      rw [h1, h2]
      exact ih.cons₂ r.name

/-- A per-row rewrite that keeps names and the deletion flag keeps the
active-name list unchanged. -/
theorem activeNames_map_eq (u : KRow → KRow) (s : DBState)
    (hn : ∀ r, (u r).name = r.name)
    (hd : ∀ r, (u r).deleted = r.deleted) :
    activeNames (s.map u) = activeNames s := by
  induction s with
  | nil => rfl
  | cons r rest ih =>
    cases hr : r.deleted with
    | true =>
      simpa [activeNames, activeRows, List.filter_cons, hd r, hr] using ih
    | false =>
      have h1 : activeNames ((r :: rest).map u) =
          r.name :: activeNames (rest.map u) := by
        simp [activeNames, activeRows, List.filter_cons, hd r, hr, hn r]
      have h2 : activeNames (r :: rest) = r.name :: activeNames rest := by
        simp [activeNames, activeRows, List.filter_cons, hr]
      rw [h1, h2, ih]

/-- A per-row rewrite that keeps orders keeps the `"Order"` column unchanged. -/
theorem ordersOf_map_eq (u : KRow → KRow) (s : DBState)
    (ho : ∀ r, (u r).order = r.order) : ordersOf (s.map u) = ordersOf s := by
  induction s with
  | nil => rfl
  | cons r rest ih => simp only [ordersOf, List.map_cons] at ih ⊢; rw [ho r, ih]

/-- What a hit of the active-row lookup guarantees. -/
theorem findFirstActive_some {s : DBState} {n : String} {r : KRow}
    (h : findFirstActive s n = some r) :
    r ∈ s ∧ r.name = n ∧ r.deleted = false := by
  unfold findFirstActive at h
  have hmem : r ∈ s.filter (fun r => r.name == n && !r.deleted) :=
    List.mem_of_mem_head? (Option.mem_def.mpr h)
  have := List.mem_filter.mp hmem
  refine ⟨this.1, ?_, ?_⟩
  · have := this.2
    simp only [Bool.and_eq_true, beq_iff_eq] at this
    exact this.1
  · have := this.2
    simp only [Bool.and_eq_true, Bool.not_eq_eq_eq_not, Bool.not_true] at this
    exact this.2

/-- With the partial unique index in force, the active-row lookup finds
exactly the given active row of that name. -/
theorem findFirstActive_eq_of_mem {s : DBState} {n : String} {C : KRow}
    (hnodup : (activeNames s).Nodup) (hC : C ∈ s) (hCn : C.name = n)
    (hCa : C.deleted = false) : findFirstActive s n = some C := by
  have hCf : C ∈ s.filter (fun r => r.name == n && !r.deleted) :=
    List.mem_filter.mpr ⟨hC, by simp [hCn, hCa]⟩
  cases hh : findFirstActive s n with
  | none =>
    unfold findFirstActive at hh
    rw [List.head?_eq_none_iff] at hh
    rw [hh] at hCf
    cases hCf
  | some r =>
    obtain ⟨hr, hrn, hra⟩ := findFirstActive_some hh
    have hrAct : r ∈ activeRows s := List.mem_filter.mpr ⟨hr, by simp [hra]⟩
    have hCAct : C ∈ activeRows s := List.mem_filter.mpr ⟨hC, by simp [hCa]⟩
    have hnodup' : ((activeRows s).map (fun r => r.name)).Nodup := hnodup
    have hrC : r = C :=
      List.inj_on_of_nodup_map (l := activeRows s) (f := fun r => r.name)
        hnodup' hrAct hCAct (by simp only []; rw [hrn, hCn])
    exact congrArg some hrC

/-- Membership is preserved by the `ORDER BY` insertion step. -/
theorem mem_insertByOrder {x r : KRow} :
    ∀ l : DBState, x ∈ insertByOrder r l ↔ x = r ∨ x ∈ l := by
  intro l
  induction l with
  | nil => simp [insertByOrder]
  | cons y ys ih =>
    unfold insertByOrder
    by_cases hle : r.order ≤ y.order
    · simp [hle]
    · simp only [hle, if_false, List.mem_cons, ih]
      tauto

/-- Membership is preserved by the `ORDER BY` sort. -/
theorem mem_sortByOrder {x : KRow} :
    ∀ l : DBState, x ∈ sortByOrder l ↔ x ∈ l := by
  intro l
  induction l with
  | nil => simp [sortByOrder]
  | cons y ys ih =>
    unfold sortByOrder
    rw [mem_insertByOrder, ih, List.mem_cons]

end PyKanban

namespace PyKanban



/-- Under the invariant, `MAX("Order")` over all rows is exactly the active
"Complete" row's order. -/
theorem maxOrderAll_of_inv {s : DBState} {rc : KRow} (hrc : rc ∈ s)
    (hmax : ∀ x ∈ s, x.name = "Complete" → x.order = rc.order ∧ x.deleted = false)
    (hlt : ∀ x ∈ s, x.name ≠ "Complete" → x.order < rc.order) :
    maxOrderAllOpt s = some rc.order := by
  unfold maxOrderAllOpt
  refine max?_eq_some_of_mem_of_le ?_ ?_
  · exact List.mem_map_of_mem (fun r => r.order) hrc
  · intro a ha
    obtain ⟨x, hx, hxa⟩ := List.mem_map.mp ha
    by_cases hxn : x.name = "Complete"
    · rw [← hxa, (hmax x hx hxn).1]
    · exact le_of_lt (hxa ▸ hlt x hx hxn)

end PyKanban

namespace PyKanban

/-- What a successful `get_order_for_new_column` call did: it found an active
"Complete" row, returned its order, and bumped every "Complete"-named row's
order by one. -/
theorem gofnc_success {s : DBState}
    (h : (get_order_for_new_column s).1.success = true) :
    ∃ rf : KRow, findFirstActive s "Complete" = some rf ∧
      (get_order_for_new_column s).1.data = QData.res (some rf.order) ∧
      applyShift (fun r => r.name == "Complete") (fun o => o + 1) s =
        some (get_order_for_new_column s).2 ∧
      (get_order_for_new_column s).2 =
        s.map (updRow (fun r => r.name == "Complete") (fun o => o + 1)) := by
  cases hf : findFirstActive s "Complete" with
  | none => simp [get_order_for_new_column, hf] at h
  | some rf =>
    cases ha : applyShift (fun r => r.name == "Complete") (fun o => o + 1) s with
    | none => simp [get_order_for_new_column, hf, ha] at h
    | some s1 =>
      have hst : (get_order_for_new_column s).2 = s1 := by
        simp [get_order_for_new_column, hf, ha]
      refine ⟨rf, rfl, ?_, ?_, ?_⟩
      · simp [get_order_for_new_column, hf, ha]
      · rw [hst]
      · rw [hst]; exact applyShift_eq_map ha

/-- What a successful `add_column` call did. -/
theorem add_column_success {s : DBState} {name : String} {order : Int}
    {cc tc : String}
    (h : (add_column s name order cc tc).1.success = true) :
    (name == "") = false ∧ ((ordersOf s).contains order) = false ∧
      ((activeNames s).contains name) = false ∧
      (add_column s name order cc tc).2 =
        s ++ [⟨name, order, 0, cc, tc, false⟩] := by
  by_cases h1 : name = ""
  · simp [add_column, h1] at h
  · by_cases h2 : order ∈ ordersOf s
    · simp [add_column, h1, h2] at h
    · by_cases h3 : name ∈ activeNames s
      · simp [add_column, h1, h2, h3] at h
      · refine ⟨by simpa using h1, by simpa using h2, by simpa using h3, ?_⟩
        simp [add_column, h1, h2, h3]

/-- What a successful `reorder_column` call did: the name is no sentinel, the
new order lies strictly between 1 and `MAX("Order")` over all rows, and every
row of that name was rewritten to the new order. -/
theorem reorder_success {s : DBState} {n : String} {k : Int}
    (h : (reorder_column s n k).1.success = true) :
    (n == "Ready to Start" || n == "Complete") = false ∧ 1 < k ∧
      (∃ m, maxOrderAllOpt s = some m ∧ k < m) ∧
      applyShift (fun r => r.name == n) (fun _ => k) s =
        some (reorder_column s n k).2 ∧
      (reorder_column s n k).2 =
        s.map (updRow (fun r => r.name == n) (fun _ => k)) := by
  cases hs : (n == "Ready to Start" || n == "Complete") with
  | true => simp [reorder_column, hs] at h
  | false =>
    by_cases hk : k ≤ 1
    · simp [reorder_column, hs, hk] at h
    · cases hm : maxOrderAllOpt s with
      | none => simp [reorder_column, hs, hk, hm] at h
      | some m =>
        by_cases hkm : k ≥ m
        · simp [reorder_column, hs, hk, hm, hkm] at h
        · cases ha : applyShift (fun r => r.name == n) (fun _ => k) s with
          | none => simp [reorder_column, hs, hk, hm, hkm, ha] at h
          | some s1 =>
            have hst : (reorder_column s n k).2 = s1 := by
              simp [reorder_column, hs, hk, hm, hkm, ha]
            refine ⟨rfl, lt_of_not_le hk, ⟨m, rfl, lt_of_not_le hkm⟩, ?_, ?_⟩
            · rw [hst]
            · rw [hst]; exact applyShift_eq_map ha

/-- What a successful `soft_delete_column` call did: the name is no sentinel,
an active row of that name was found, and the table is the per-row rewrite
`softDeleteRowUpd` of the original. -/
theorem soft_delete_success {s : DBState} {n : String}
    (h : (soft_delete_column s n).1.success = true) :
    ∃ rd : KRow, (n == "Ready to Start" || n == "Complete") = false ∧
      findFirstActive s n = some rd ∧
      applyShift
        (fun r => (!r.deleted && decide (rd.order < r.order)) && r.name != "Complete")
        (fun o => o - 1) (s.map (flagRow n)) =
        some (soft_delete_column s n).2 ∧
      (soft_delete_column s n).2 = s.map (softDeleteRowUpd n rd.order) := by
  unfold soft_delete_column at h ⊢
  split at h
  case isTrue => simp at h
  case isFalse hsent =>
    split at h
    next hf => simp at h
    next rd hf =>
      split at h
      next ha => simp at h
      next s2 ha =>
        have hsent' : (n == "Ready to Start" || n == "Complete") = false := by
          revert hsent
          cases (n == "Ready to Start" || n == "Complete") <;> simp
        refine ⟨rd, hsent', hf, ?_, ?_⟩
        · rw [hsent']
          simp only [Bool.false_eq_true, if_false, hf, ha]
        · rw [hsent']
          simp only [Bool.false_eq_true, if_false, hf, ha]
          rw [applyShift_eq_map ha, List.map_map]
          rfl

/-- The state produced by `update_column_color` with a valid color type. -/
theorem update_color_state {s : DBState} {n t c : String}
    (ht : (t == "ColumnColor" || t == "TextColor") = true) :
    (update_column_color s n t c).1.success = true ∧
      (update_column_color s n t c).2 = s.map (colorUpd n t c) := by
  constructor <;> simp [update_column_color, ht]

end PyKanban

namespace PyKanban

theorem updRow_name (p : KRow → Bool) (g : Int → Int) (r : KRow) :
    (updRow p g r).name = r.name := by
  unfold updRow; split <;> rfl

theorem updRow_deleted (p : KRow → Bool) (g : Int → Int) (r : KRow) :
    (updRow p g r).deleted = r.deleted := by
  unfold updRow; split <;> rfl

theorem updRow_of_pos {p : KRow → Bool} (g : Int → Int) {r : KRow}
    (h : p r = true) : updRow p g r = { r with order := g r.order } := by
  simp [updRow, h]

theorem updRow_of_neg {p : KRow → Bool} (g : Int → Int) {r : KRow}
    (h : p r = false) : updRow p g r = r := by
  simp [updRow, h]

theorem colorUpd_name (n t c : String) (r : KRow) :
    (colorUpd n t c r).name = r.name := by
  unfold colorUpd
  split
  · split <;> rfl
  · rfl

theorem colorUpd_order (n t c : String) (r : KRow) :
    (colorUpd n t c r).order = r.order := by
  unfold colorUpd
  split
  · split <;> rfl
  · rfl

theorem colorUpd_deleted (n t c : String) (r : KRow) :
    (colorUpd n t c r).deleted = r.deleted := by
  unfold colorUpd
  split
  · split <;> rfl
  · rfl

theorem flagRow_name (n : String) (r : KRow) : (flagRow n r).name = r.name := by
  unfold flagRow; split <;> rfl

theorem flagRow_order (n : String) (r : KRow) :
    (flagRow n r).order = r.order := by
  unfold flagRow; split <;> rfl

theorem flagRow_of_ne {n : String} {r : KRow} (h : r.name ≠ n) :
    flagRow n r = r := by
  simp [flagRow, h]

theorem flagRow_deleted_of {n : String} {r : KRow} (h : r.deleted = true) :
    (flagRow n r).deleted = true := by
  unfold flagRow
  split
  · rfl
  · exact h

theorem flagRow_active {n : String} {r : KRow}
    (h : (flagRow n r).deleted = false) : r.deleted = false := by
  cases hr : r.deleted with
  | false => rfl
  | true => rw [flagRow_deleted_of hr] at h; cases h

theorem softDecRow_name (d : Int) (r : KRow) :
    (softDecRow d r).name = r.name := by
  unfold softDecRow; split <;> rfl

theorem softDecRow_deleted (d : Int) (r : KRow) :
    (softDecRow d r).deleted = r.deleted := by
  unfold softDecRow; split <;> rfl

theorem softDecRow_of_deleted {d : Int} {r : KRow} (h : r.deleted = true) :
    softDecRow d r = r := by
  simp [softDecRow, h]

theorem softDecRow_of_complete {d : Int} {r : KRow}
    (h : r.name = "Complete") : softDecRow d r = r := by
  simp [softDecRow, h]

theorem softDecRow_of_not_lt {d : Int} {r : KRow} (h : ¬(d < r.order)) :
    softDecRow d r = r := by
  simp [softDecRow, h]

theorem softDecRow_order_cases (d : Int) (r : KRow) :
    softDecRow d r = r ∨
      ((softDecRow d r).order = r.order - 1 ∧ d < r.order) := by
  unfold softDecRow
  split
  next hcond =>
    simp only [Bool.and_eq_true, decide_eq_true_eq] at hcond
    exact Or.inr ⟨rfl, hcond.1.2⟩
  next => exact Or.inl rfl

theorem softDeleteRowUpd_name (n : String) (d : Int) (r : KRow) :
    (softDeleteRowUpd n d r).name = r.name := by
  unfold softDeleteRowUpd
  rw [softDecRow_name, flagRow_name]

theorem softDeleteRowUpd_deleted_of {n : String} {d : Int} {r : KRow}
    (h : r.deleted = true) : (softDeleteRowUpd n d r).deleted = true := by
  unfold softDeleteRowUpd
  rw [softDecRow_deleted]
  exact flagRow_deleted_of h

end PyKanban

namespace PyKanban

/-- The `update_column_color` operation preserves the ordering invariant: it only rewrites
color fields. -/
theorem inv_color {s : DBState} (n t c : String) (hinv : Inv s) :
    Inv (s.map (colorUpd n t c)) := by
  obtain ⟨h1, h2, ⟨r0, hr0, hr0n, hr0d, hr0o⟩, h4, rc, hrc, hrcn, hrcd, hmaxeq, hlt⟩ := hinv
  refine ⟨?_, ?_, ?_, ?_, ?_⟩
  · have : ordersOf (s.map (colorUpd n t c)) = ordersOf s :=
      ordersOf_map_eq _ _ (colorUpd_order n t c)
    rw [this]; exact h1
  · have : activeNames (s.map (colorUpd n t c)) = activeNames s :=
      activeNames_map_eq _ _ (colorUpd_name n t c) (colorUpd_deleted n t c)
    rw [this]; exact h2
  · exact ⟨colorUpd n t c r0, List.mem_map_of_mem _ hr0,
      by rw [colorUpd_name]; exact hr0n,
      by rw [colorUpd_deleted]; exact hr0d,
      by rw [colorUpd_order]; exact hr0o⟩
  · intro x' hx' hx'n
    obtain ⟨x, hx, rfl⟩ := List.mem_map.mp hx'
    rw [colorUpd_order]
    rw [colorUpd_name] at hx'n
    exact h4 x hx hx'n
  · refine ⟨colorUpd n t c rc, List.mem_map_of_mem _ hrc,
      by rw [colorUpd_name]; exact hrcn,
      by rw [colorUpd_deleted]; exact hrcd, ?_, ?_⟩
    · intro x' hx' hx'n
      obtain ⟨x, hx, rfl⟩ := List.mem_map.mp hx'
      rw [colorUpd_name] at hx'n
      rw [colorUpd_order, colorUpd_order, colorUpd_deleted]
      exact hmaxeq x hx hx'n
    · intro x' hx' hx'n
      obtain ⟨x, hx, rfl⟩ := List.mem_map.mp hx'
      rw [colorUpd_name] at hx'n
      rw [colorUpd_order, colorUpd_order]
      exact hlt x hx hx'n

/-- Bumping every "Complete"-named row by one (the successful
`get_order_for_new_column` UPDATE) preserves the ordering invariant, and
afterwards every "Complete"-named row sits at the old order plus one. -/
theorem inv_bump {s : DBState} {rf : KRow} (hinv : Inv s)
    (hf : findFirstActive s "Complete" = some rf)
    (hnd : (ordersOf (s.map (updRow (fun r => r.name == "Complete")
      (fun o => o + 1)))).Nodup) :
    Inv (s.map (updRow (fun r => r.name == "Complete") (fun o => o + 1))) ∧
      (∀ x ∈ s.map (updRow (fun r => r.name == "Complete") (fun o => o + 1)),
        x.name = "Complete" → x.order = rf.order + 1) ∧
      2 ≤ rf.order := by
  obtain ⟨h1, h2, ⟨r0, hr0, hr0n, hr0d, hr0o⟩, h4, rc, hrc, hrcn, hrcd, hmaxeq, hlt⟩ := hinv
  obtain ⟨hrfmem, hrfn, hrfd⟩ := findFirstActive_some hf
  have hrfo : rf.order = rc.order := (hmaxeq rf hrfmem hrfn).1
  have hrf2 : 2 ≤ rf.order := h4 rf hrfmem (by rw [hrfn]; decide)
  have hbump : ∀ x : KRow, x.name = "Complete" →
      updRow (fun r => r.name == "Complete") (fun o => o + 1) x =
        { x with order := x.order + 1 } := by
    intro x hx
    exact updRow_of_pos _ (by simp [hx])
  have hskip : ∀ x : KRow, x.name ≠ "Complete" →
      updRow (fun r => r.name == "Complete") (fun o => o + 1) x = x := by
    intro x hx
    exact updRow_of_neg _ (by simp [hx])
  have hcomp : ∀ x ∈ s.map (updRow (fun r => r.name == "Complete") (fun o => o + 1)),
      x.name = "Complete" → x.order = rf.order + 1 ∧ x.deleted = false := by
    intro x' hx' hx'n
    obtain ⟨x, hx, rfl⟩ := List.mem_map.mp hx'
    rw [updRow_name] at hx'n
    obtain ⟨hxo, hxd⟩ := hmaxeq x hx hx'n
    rw [hbump x hx'n]
    exact ⟨by simp [hxo, hrfo], hxd⟩
  refine ⟨⟨hnd, ?_, ?_, ?_, ?_⟩, fun x hx hxn => (hcomp x hx hxn).1, hrf2⟩
  · have : activeNames (s.map (updRow (fun r => r.name == "Complete") (fun o => o + 1)))
        = activeNames s :=
      activeNames_map_eq _ _ (updRow_name _ _) (updRow_deleted _ _)
    rw [this]; exact h2
  · refine ⟨r0, ?_, hr0n, hr0d, hr0o⟩
    have := List.mem_map_of_mem
      (updRow (fun r => r.name == "Complete") (fun o => o + 1)) hr0
    rwa [hskip r0 (by rw [hr0n]; decide)] at this
  · intro x' hx' hx'n
    obtain ⟨x, hx, rfl⟩ := List.mem_map.mp hx'
    rw [updRow_name] at hx'n
    by_cases hxc : x.name = "Complete"
    · rw [hbump x hxc]
      have := h4 x hx (by rw [hxc]; decide)
      simp only []
      omega
    · rw [hskip x hxc]
      exact h4 x hx hx'n
  · refine ⟨{ rc with order := rc.order + 1 }, ?_, hrcn, hrcd, ?_, ?_⟩
    · have := List.mem_map_of_mem
        (updRow (fun r => r.name == "Complete") (fun o => o + 1)) hrc
      rwa [hbump rc hrcn] at this
    · intro x' hx' hx'n
      obtain ⟨hxo, hxd⟩ := hcomp x' hx' hx'n
      exact ⟨by rw [hxo]; simp [hrfo], hxd⟩
    · intro x' hx' hx'n
      obtain ⟨x, hx, rfl⟩ := List.mem_map.mp hx'
      rw [updRow_name] at hx'n
      rw [hskip x hx'n]
      have := hlt x hx hx'n
      simp only []
      omega

end PyKanban

namespace PyKanban

/-- Appending a fresh active row whose order is unused, at least 2, and below
every "Complete" row's order, and whose name is not an active name, preserves
the ordering invariant (the successful INSERT of `add_column`). -/
theorem inv_append {s1 : DBState} {nw : KRow} (hinv : Inv s1)
    (hord : nw.order ∉ ordersOf s1) (hnm : nw.name ∉ activeNames s1)
    (hactive : nw.deleted = false) (hk2 : 2 ≤ nw.order)
    (hklt : ∀ x ∈ s1, x.name = "Complete" → nw.order < x.order) :
    Inv (s1 ++ [nw]) := by
  obtain ⟨h1, h2, ⟨r0, hr0, hr0n, hr0d, hr0o⟩, h4, rc, hrc, hrcn, hrcd, hmaxeq, hlt⟩ := hinv
  have hrcActive : rc.name ∈ activeNames s1 :=
    List.mem_map_of_mem _ (List.mem_filter.mpr ⟨hrc, by simp [hrcd]⟩)
  have hr0Active : r0.name ∈ activeNames s1 :=
    List.mem_map_of_mem _ (List.mem_filter.mpr ⟨hr0, by simp [hr0d]⟩)
  have hnC : nw.name ≠ "Complete" := by
    intro heq
    rw [← hrcn] at heq
    exact hnm (heq ▸ hrcActive)
  have hnR : nw.name ≠ "Ready to Start" := by
    intro heq
    rw [← hr0n] at heq
    exact hnm (heq ▸ hr0Active)
  refine ⟨?_, ?_, ?_, ?_, ?_⟩
  · have : ordersOf (s1 ++ [nw]) = ordersOf s1 ++ [nw.order] := by
      simp [ordersOf]
    rw [this, List.nodup_append]
    refine ⟨h1, List.nodup_singleton _, ?_⟩
    intro a ha hb
    simp only [List.mem_singleton] at hb
    rw [hb] at ha
    exact hord ha
  · have : activeNames (s1 ++ [nw]) = activeNames s1 ++ [nw.name] := by
      simp [activeNames, activeRows, List.filter_append, hactive]
    rw [this, List.nodup_append]
    refine ⟨h2, List.nodup_singleton _, ?_⟩
    intro a ha hb
    simp only [List.mem_singleton] at hb
    rw [hb] at ha
    exact hnm ha
  · exact ⟨r0, List.mem_append_left _ hr0, hr0n, hr0d, hr0o⟩
  · intro x hx hxn
    rcases List.mem_append.mp hx with hx | hx
    · exact h4 x hx hxn
    · simp only [List.mem_singleton] at hx
      rw [hx]
      exact hk2
  · refine ⟨rc, List.mem_append_left _ hrc, hrcn, hrcd, ?_, ?_⟩
    · intro x hx hxn
      rcases List.mem_append.mp hx with hx | hx
      · exact hmaxeq x hx hxn
      · simp only [List.mem_singleton] at hx
        rw [hx] at hxn
        exact absurd hxn hnC
    · intro x hx hxn
      rcases List.mem_append.mp hx with hx | hx
      · exact hlt x hx hxn
      · simp only [List.mem_singleton] at hx
        rw [hx]
        exact hklt rc hrc hrcn

/-- A successful combined `get_order_for_new_column` + `add_column` call
preserves the ordering invariant. -/
theorem inv_addCombo {s : DBState} {nm cc tc : String} (hinv : Inv s)
    (h : (addColumnCombo s nm cc tc).1.success = true) :
    Inv (addColumnCombo s nm cc tc).2 := by
  unfold addColumnCombo at h ⊢
  split at h
  next k msg s1 heq =>
    have hg : (get_order_for_new_column s).1.success = true := by
      rw [heq]
    obtain ⟨rf, hf, hdata, hshift, hstate⟩ := gofnc_success hg
    have hs1 : s1 = s.map (updRow (fun r => r.name == "Complete") (fun o => o + 1)) := by
      rw [← hstate, heq]
    have hk : k = rf.order := by
      rw [heq] at hdata
      simp only [QData.res.injEq, Option.some.injEq] at hdata
      exact hdata
    have hnd1 : (ordersOf (s.map (updRow (fun r => r.name == "Complete")
        (fun o => o + 1)))).Nodup := by
      rw [heq] at hshift
      have := applyShift_nodup hinv.1 hshift
      rw [hs1] at this
      exact this
    obtain ⟨hinv1, hcomp1, hrf2⟩ := inv_bump hinv hf hnd1
    obtain ⟨hne, hordc, hnamec, hstate2⟩ := add_column_success h
    have hordc' : (⟨nm, k, 0, cc, tc, false⟩ : KRow).order ∉ ordersOf s1 := by
      simpa using hordc
    have hnamec' : (⟨nm, k, 0, cc, tc, false⟩ : KRow).name ∉ activeNames s1 := by
      simpa using hnamec
    rw [hstate2]
    rw [hs1] at hordc' hnamec' ⊢
    refine inv_append hinv1 hordc' hnamec' rfl ?_ ?_
    · show (2 : Int) ≤ k
      omega
    · intro x hx hxn
      have := hcomp1 x hx hxn
      show k < x.order
      omega
  next r s1 hne heq =>
    simp at h

end PyKanban

namespace PyKanban

/-- A successful `reorder_column` call preserves the ordering invariant: the
accepted order lies strictly between 1 and the global maximum (which the
invariant pins to "Complete"), and the statement's UNIQUE check keeps the
orders distinct. -/
theorem inv_reorder {s : DBState} {n : String} {k : Int} (hinv : Inv s)
    (h : (reorder_column s n k).1.success = true) :
    Inv (reorder_column s n k).2 := by
  obtain ⟨hsent, hk1, ⟨m, hm, hkm⟩, hshift, hstate⟩ := reorder_success h
  obtain ⟨h1, h2, ⟨r0, hr0, hr0n, hr0d, hr0o⟩, h4, rc, hrc, hrcn, hrcd, hmaxeq, hlt⟩ := hinv
  have hsent' : n ≠ "Ready to Start" ∧ n ≠ "Complete" := by
    constructor <;> intro he <;> rw [he] at hsent <;> simp at hsent
  have hmrc : m = rc.order := by
    have hmax := maxOrderAll_of_inv hrc hmaxeq hlt
    rw [hm] at hmax
    exact Option.some.inj hmax
  have hnd : (ordersOf (reorder_column s n k).2).Nodup := applyShift_nodup h1 hshift
  have hskip : ∀ x : KRow, x.name ≠ n →
      updRow (fun r => r.name == n) (fun _ => k) x = x := by
    intro x hx
    exact updRow_of_neg _ (by simp [hx])
  have hset : ∀ x : KRow, x.name = n →
      updRow (fun r => r.name == n) (fun _ => k) x = { x with order := k } := by
    intro x hx
    exact updRow_of_pos _ (by simp [hx])
  rw [hstate] at hnd ⊢
  refine ⟨hnd, ?_, ?_, ?_, ?_⟩
  · have : activeNames (s.map (updRow (fun r => r.name == n) (fun _ => k)))
        = activeNames s :=
      activeNames_map_eq _ _ (updRow_name _ _) (updRow_deleted _ _)
    rw [this]; exact h2
  · refine ⟨r0, ?_, hr0n, hr0d, hr0o⟩
    have := List.mem_map_of_mem (updRow (fun r => r.name == n) (fun _ => k)) hr0
    rwa [hskip r0 (by rw [hr0n]; exact fun he => hsent'.1 he.symm)] at this
  · intro x' hx' hx'n
    obtain ⟨x, hx, rfl⟩ := List.mem_map.mp hx'
    rw [updRow_name] at hx'n
    by_cases hxn : x.name = n
    · rw [hset x hxn]
      show (2 : Int) ≤ k
      omega
    · rw [hskip x hxn]
      exact h4 x hx hx'n
  · refine ⟨rc, ?_, hrcn, hrcd, ?_, ?_⟩
    · have := List.mem_map_of_mem (updRow (fun r => r.name == n) (fun _ => k)) hrc
      rwa [hskip rc (by rw [hrcn]; exact fun he => hsent'.2 he.symm)] at this
    · intro x' hx' hx'n
      obtain ⟨x, hx, rfl⟩ := List.mem_map.mp hx'
      rw [updRow_name] at hx'n
      rw [hskip x (by rw [hx'n]; exact fun he => hsent'.2 he.symm)]
      exact hmaxeq x hx hx'n
    · intro x' hx' hx'n
      obtain ⟨x, hx, rfl⟩ := List.mem_map.mp hx'
      rw [updRow_name] at hx'n
      by_cases hxn : x.name = n
      · rw [hset x hxn]
        show k < rc.order
        omega
      · rw [hskip x hxn]
        exact hlt x hx hx'n

/-- A successful `soft_delete_column` call preserves the ordering invariant:
"Ready to Start" (order 1) is never decremented, "Complete" is excluded from
the decrement, decremented rows stay at order ≥ 2, and the statement's UNIQUE
check keeps the orders distinct. -/
theorem inv_softdel {s : DBState} {n : String} (hinv : Inv s)
    (h : (soft_delete_column s n).1.success = true) :
    Inv (soft_delete_column s n).2 := by
  obtain ⟨rd, hsent, hf, hshift, hstate⟩ := soft_delete_success h
  obtain ⟨h1, h2, ⟨r0, hr0, hr0n, hr0d, hr0o⟩, h4, rc, hrc, hrcn, hrcd, hmaxeq, hlt⟩ := hinv
  obtain ⟨hrdmem, hrdn, hrdd⟩ := findFirstActive_some hf
  have hsent' : n ≠ "Ready to Start" ∧ n ≠ "Complete" := by
    constructor <;> intro he <;> rw [he] at hsent <;> simp at hsent
  have hd2 : (2 : Int) ≤ rd.order := h4 rd hrdmem (by rw [hrdn]; exact hsent'.1)
  have hnd0 : ((s.map (flagRow n)).map (fun r => r.order)).Nodup := by
    show (ordersOf (s.map (flagRow n))).Nodup
    rw [ordersOf_map_eq _ _ (flagRow_order n)]
    exact h1
  have hnd : (ordersOf (soft_delete_column s n).2).Nodup :=
    applyShift_nodup hnd0 hshift
  have hfixC : ∀ x : KRow, x.name = "Complete" →
      softDeleteRowUpd n rd.order x = x := by
    intro x hx
    unfold softDeleteRowUpd
    rw [flagRow_of_ne (by rw [hx]; exact fun he => hsent'.2 he.symm)]
    exact softDecRow_of_complete hx
  rw [hstate] at hnd ⊢
  refine ⟨hnd, ?_, ?_, ?_, ?_⟩
  · exact List.Nodup.sublist
      (activeNames_map_sublist _ _ (softDeleteRowUpd_name n rd.order)
        (fun r hr => softDeleteRowUpd_deleted_of hr)) h2
  · refine ⟨r0, ?_, hr0n, hr0d, hr0o⟩
    have := List.mem_map_of_mem (softDeleteRowUpd n rd.order) hr0
    have hu0 : softDeleteRowUpd n rd.order r0 = r0 := by
      unfold softDeleteRowUpd
      rw [flagRow_of_ne (by rw [hr0n]; exact fun he => hsent'.1 he.symm)]
      exact softDecRow_of_not_lt (by rw [hr0o]; omega)
    rwa [hu0] at this
  · intro x' hx' hx'n
    obtain ⟨x, hx, rfl⟩ := List.mem_map.mp hx'
    rw [softDeleteRowUpd_name] at hx'n
    have hx2 : (2 : Int) ≤ x.order := h4 x hx hx'n
    unfold softDeleteRowUpd
    rcases softDecRow_order_cases rd.order (flagRow n x) with hcase | ⟨horder, hlt'⟩
    · rw [hcase, flagRow_order]
      exact hx2
    · rw [horder, flagRow_order]
      rw [flagRow_order] at hlt'
      omega
  · refine ⟨rc, ?_, hrcn, hrcd, ?_, ?_⟩
    · have := List.mem_map_of_mem (softDeleteRowUpd n rd.order) hrc
      rwa [hfixC rc hrcn] at this
    · intro x' hx' hx'n
      obtain ⟨x, hx, rfl⟩ := List.mem_map.mp hx'
      rw [softDeleteRowUpd_name] at hx'n
      rw [hfixC x hx'n]
      exact hmaxeq x hx hx'n
    · intro x' hx' hx'n
      obtain ⟨x, hx, rfl⟩ := List.mem_map.mp hx'
      rw [softDeleteRowUpd_name] at hx'n
      have hxlt : x.order < rc.order := hlt x hx hx'n
      unfold softDeleteRowUpd
      rcases softDecRow_order_cases rd.order (flagRow n x) with hcase | ⟨horder, hlt'⟩
      · rw [hcase, flagRow_order]
        exact hxlt
      · rw [horder, flagRow_order]
        omega

end PyKanban

namespace PyKanban

/-- Every reachable database state satisfies the ordering invariant `Inv`. -/
theorem reach_inv : ∀ s : DBState, Reach s → Inv s := by
  intro s h
  induction h with
  | init => decide
  | add s nm cc tc _ hsucc ih => exact inv_addCombo ih hsucc
  | reorder s n k _ hsucc ih => exact inv_reorder ih hsucc
  | softDel s n _ hsucc ih => exact inv_softdel ih hsucc
  | color s n t c _ hsucc ih =>
    have ht : (t == "ColumnColor" || t == "TextColor") = true := by
      cases hb : (t == "ColumnColor" || t == "TextColor") with
      | true => rfl
      | false => simp [update_column_color, hb] at hsucc
    rw [(update_color_state ht).2]
    exact inv_color n t c ih

end PyKanban

namespace PyKanban

/-- C1 (counterexample): on the freshly initialized board, where the active
"Complete" column has order k = 3, a successful `get_order_for_new_column()`
call returns exactly 3 — not a value strictly less than 3 as the claim
states; the claim's "strictly less than k (the pre-call order)" is false. -/
theorem claim_C1_counterexample :
    (get_order_for_new_column initRows).1.success = true ∧
    (get_order_for_new_column initRows).1.data = QData.res (some 3) ∧
    (⟨"Complete", 3, 0, "#b8daff", "#000000", false⟩ : KRow) ∈ initRows ∧
    (⟨"Complete", 3, 0, "#b8daff", "#000000", false⟩ : KRow).deleted = false ∧
    ¬((3 : Int) < 3) := by
  decide

/-- C1 (amended): for every database state (with the partial unique index on
active names in force) in which an active column named "Complete" exists with
order k, a successful `get_order_for_new_column()` call returns exactly k —
the vacated order, strictly less than k + 1, "Complete"'s post-call order —
and after the call "Complete"'s order equals k + 1. -/
theorem claim_C1 {s : DBState} {C : KRow} (hnodup : (activeNames s).Nodup)
    (hC : C ∈ s) (hCn : C.name = "Complete") (hCd : C.deleted = false)
    (hsucc : (get_order_for_new_column s).1.success = true) :
    (get_order_for_new_column s).1.data = QData.res (some C.order) ∧
    { C with order := C.order + 1 } ∈ (get_order_for_new_column s).2 ∧
    C.order < C.order + 1 := by
  obtain ⟨rf, hf, hdata, hshift, hstate⟩ := gofnc_success hsucc
  have hfC : findFirstActive s "Complete" = some C :=
    findFirstActive_eq_of_mem hnodup hC hCn hCd
  rw [hfC] at hf
  have hrfC : rf = C := (Option.some.inj hf).symm
  refine ⟨by rw [hdata, hrfC], ?_, by omega⟩
  rw [hstate]
  have := List.mem_map_of_mem
    (updRow (fun r => r.name == "Complete") (fun o => o + 1)) hC
  rwa [updRow_of_pos _ (by simp [hCn])] at this

/-- C1 (witness): the amended claim applied to the freshly initialized board. -/
theorem claim_C1_witness :
    (get_order_for_new_column initRows).1.data = QData.res (some (3 : Int)) ∧
    ({ name := "Complete", order := 3 + 1, number := 0, columnColor := "#b8daff",
       textColor := "#000000", deleted := false } : KRow) ∈
      (get_order_for_new_column initRows).2 ∧
    (3 : Int) < 3 + 1 :=
  @claim_C1 initRows ⟨"Complete", 3, 0, "#b8daff", "#000000", false⟩
    (by decide) (by decide) rfl rfl (by decide)

/-- C2 (counterexample): the state reached from the initialized board by the
successful call `soft_delete_column("In Progress")` has active orders {1, 3}
— not a contiguous ascending sequence — because the decrement excludes
"Complete"; the claimed invariant fails on a reachable state. -/
theorem claim_C2_counterexample :
    Reach [⟨"Ready to Start", 1, 0, "#b8daff", "#000000", false⟩,
           ⟨"In Progress", 2, 0, "#b8daff", "#000000", true⟩,
           ⟨"Complete", 3, 0, "#b8daff", "#000000", false⟩] ∧
    ¬ specContiguousInv
        [⟨"Ready to Start", 1, 0, "#b8daff", "#000000", false⟩,
         ⟨"In Progress", 2, 0, "#b8daff", "#000000", true⟩,
         ⟨"Complete", 3, 0, "#b8daff", "#000000", false⟩] := by
  constructor
  · have h2 : (soft_delete_column initRows "In Progress").2 =
        [⟨"Ready to Start", 1, 0, "#b8daff", "#000000", false⟩,
         ⟨"In Progress", 2, 0, "#b8daff", "#000000", true⟩,
         ⟨"Complete", 3, 0, "#b8daff", "#000000", false⟩] := by decide
    exact h2 ▸ Reach.softDel initRows "In Progress" Reach.init (by decide)
  · decide

/-- C2 (amended): every reachable database state (from `initialize_database`
by successful add-with-`get_order_for_new_column`, `reorder_column`,
`soft_delete_column` and `update_column_color` calls) satisfies `Inv`: all
`Order` values are pairwise distinct — so the active columns are strictly
ascending when listed by order — with "Ready to Start" active at the minimal
order 1 and "Complete" active at the strictly maximal order; but the active
orders need not be contiguous (`soft_delete_column` leaves a gap below
"Complete", see the counterexample). -/
theorem claim_C2 : ∀ s : DBState, Reach s → Inv s :=
  reach_inv

/-- C2 (witness): the invariant holds at the freshly initialized board. -/
theorem claim_C2_witness : Inv initRows :=
  claim_C2 initRows Reach.init

end PyKanban

namespace PyKanban

/-- C3: for every database state (with the partial unique index in force)
containing an active non-sentinel column C, a successful
`soft_delete_column(C.name)` produces exactly the per-row rewrite
`softDeleteRowUpd`: C's row is kept but flagged deleted (so C's name is gone
from `load_columns` output), and every remaining active column with order
greater than C's — except "Complete" — has its order decremented by one. -/
theorem claim_C3 {s : DBState} {C : KRow} (hnodup : (activeNames s).Nodup)
    (hC : C ∈ s) (hCd : C.deleted = false)
    (hCn1 : C.name ≠ "Ready to Start") (hCn2 : C.name ≠ "Complete")
    (hsucc : (soft_delete_column s C.name).1.success = true) :
    (soft_delete_column s C.name).2 = s.map (softDeleteRowUpd C.name C.order) ∧
    (∀ e ∈ load_columns (soft_delete_column s C.name).2, e.1 ≠ C.name) ∧
    ({ C with deleted := true } ∈ (soft_delete_column s C.name).2) ∧
    (∀ r ∈ s, r.deleted = false → r.name ≠ C.name →
      (if C.order < r.order ∧ r.name ≠ "Complete"
        then { r with order := r.order - 1 } else r) ∈
        (soft_delete_column s C.name).2) := by
  obtain ⟨rd, hsent, hf, hshift, hstate⟩ := soft_delete_success hsucc
  have hfC : findFirstActive s C.name = some C :=
    findFirstActive_eq_of_mem hnodup hC rfl hCd
  have hrdC : rd = C := by
    rw [hfC] at hf
    exact (Option.some.inj hf).symm
  rw [hrdC] at hstate
  have hflagC : flagRow C.name C = { C with deleted := true } := by
    unfold flagRow
    rw [if_pos (by simp [hCd])]
  have huC : softDeleteRowUpd C.name C.order C = { C with deleted := true } := by
    unfold softDeleteRowUpd
    rw [hflagC]
    exact softDecRow_of_deleted rfl
  refine ⟨hstate, ?_, ?_, ?_⟩
  · intro e he hname
    unfold load_columns at he
    obtain ⟨x, hx, hxe⟩ := List.mem_map.mp he
    have hxact : x ∈ activeRows (soft_delete_column s C.name).2 :=
      (mem_sortByOrder _).mp hx
    have hxd : x.deleted = false := by
      have := (List.mem_filter.mp hxact).2
      simpa using this
    have hxmem : x ∈ (soft_delete_column s C.name).2 :=
      (List.mem_filter.mp hxact).1
    rw [hstate] at hxmem
    obtain ⟨y, hy, hyx⟩ := List.mem_map.mp hxmem
    have hxname : x.name = C.name := by rw [← hxe] at hname; exact hname
    have hyname : y.name = C.name := by
      rw [← hyx, softDeleteRowUpd_name] at hxname
      exact hxname
    have hdel : (softDeleteRowUpd C.name C.order y).deleted = true := by
      unfold softDeleteRowUpd
      rw [softDecRow_deleted]
      cases hyd : y.deleted with
      | true => exact flagRow_deleted_of hyd
      | false =>
        unfold flagRow
        rw [if_pos (by simp [hyname, hyd])]
    rw [hyx] at hdel
    rw [hdel] at hxd
    cases hxd
  · rw [hstate, ← huC]
    exact List.mem_map_of_mem _ hC
  · intro r hr hrd hrn
    rw [hstate]
    have hflagr : flagRow C.name r = r := flagRow_of_ne hrn
    by_cases hcond : C.order < r.order ∧ r.name ≠ "Complete"
    · rw [if_pos hcond]
      have hur : softDeleteRowUpd C.name C.order r =
          { r with order := r.order - 1 } := by
        unfold softDeleteRowUpd
        rw [hflagr]
        unfold softDecRow
        rw [if_pos (by simp [hrd, hcond.1, hcond.2])]
      rw [← hur]
      exact List.mem_map_of_mem _ hr
    · rw [if_neg hcond]
      have hur : softDeleteRowUpd C.name C.order r = r := by
        unfold softDeleteRowUpd
        rw [hflagr]
        by_cases hlt : C.order < r.order
        · have hcomp : r.name = "Complete" := by
            by_contra hne
            exact hcond ⟨hlt, hne⟩
          exact softDecRow_of_complete hcomp
        · exact softDecRow_of_not_lt hlt
      rw [← hur]
      exact List.mem_map_of_mem _ hr

/-- C3 (witness): deleting "In Progress" on the freshly initialized board:
the flagged row stays in the table. -/
theorem claim_C3_witness :
    ({ name := "In Progress", order := 2, number := 0, columnColor := "#b8daff",
       textColor := "#000000", deleted := true } : KRow) ∈
      (soft_delete_column initRows "In Progress").2 :=
  (@claim_C3 initRows ⟨"In Progress", 2, 0, "#b8daff", "#000000", false⟩
    (by decide) (by decide) rfl (by decide) (by decide) (by decide)).2.2.1

end PyKanban

namespace PyKanban

/-- C4: `reorder_column` on a sentinel name always fails with the state
unchanged; on any name it fails with the state unchanged whenever
`new_order <= 1`, and whenever `new_order >=` the maximum `"Order"` the code
reads (`MAX("Order")` over all rows — the bound the validation uses). -/
theorem claim_C4 (s : DBState) (nm : String) (k : Int) :
    ((nm = "Ready to Start" ∨ nm = "Complete") →
      (reorder_column s nm k).1.success = false ∧ (reorder_column s nm k).2 = s) ∧
    (k ≤ 1 →
      (reorder_column s nm k).1.success = false ∧ (reorder_column s nm k).2 = s) ∧
    (∀ m, maxOrderAllOpt s = some m → m ≤ k →
      (reorder_column s nm k).1.success = false ∧ (reorder_column s nm k).2 = s) := by
  refine ⟨?_, ?_, ?_⟩
  · intro hsent
    have hb : (nm == "Ready to Start" || nm == "Complete") = true := by
      rcases hsent with h | h <;> simp [h]
    constructor <;> simp [reorder_column, hb]
  · intro hk
    cases hb : (nm == "Ready to Start" || nm == "Complete") with
    | true => constructor <;> simp [reorder_column, hb]
    | false => constructor <;> simp [reorder_column, hb, hk]
  · intro m hm hmk
    cases hb : (nm == "Ready to Start" || nm == "Complete") with
    | true => constructor <;> simp [reorder_column, hb]
    | false =>
      by_cases hk : k ≤ 1
      · constructor <;> simp [reorder_column, hb, hk]
      · have hge : k ≥ m := hmk
        constructor <;> simp [reorder_column, hb, hk, hm, hge]

/-- C4 (witness): on the initialized board, reordering "Ready to Start" to 2,
or "In Progress" to 1 or to the maximum 3, all fail without mutating. -/
theorem claim_C4_witness :
    ((reorder_column initRows "Ready to Start" 2).1.success = false ∧
      (reorder_column initRows "Ready to Start" 2).2 = initRows) ∧
    ((reorder_column initRows "In Progress" 1).1.success = false ∧
      (reorder_column initRows "In Progress" 1).2 = initRows) ∧
    ((reorder_column initRows "In Progress" 3).1.success = false ∧
      (reorder_column initRows "In Progress" 3).2 = initRows) :=
  ⟨(claim_C4 initRows "Ready to Start" 2).1 (Or.inl rfl),
   (claim_C4 initRows "In Progress" 1).2.1 (by decide),
   (claim_C4 initRows "In Progress" 3).2.2 3 (by decide) (by decide)⟩

/-- C5: on a fresh database, `initialize_database` succeeds and the table
holds exactly the three active default columns "Ready to Start" (order 1),
"In Progress" (order 2) and "Complete" (order 3); and whenever any step of
initialization fails the whole transaction is rolled back and that step's
failure is returned, so the database is unchanged — no partial schema
persists. -/
theorem claim_C5 :
    ((init_database none).1.success = true ∧
      (init_database none).2 = some initRows ∧
      activeRows initRows =
        [⟨"Ready to Start", 1, 0, "#b8daff", "#000000", false⟩,
         ⟨"In Progress", 2, 0, "#b8daff", "#000000", false⟩,
         ⟨"Complete", 3, 0, "#b8daff", "#000000", false⟩] ∧
      (activeRows initRows).length = 3) ∧
    (∀ st : Option DBState, (init_database st).1.success = false →
      (init_database st).2 = st) := by
  constructor
  · exact ⟨rfl, rfl, by decide, by decide⟩
  · intro st h
    cases st with
    | none => simp [init_database] at h
    | some t => rfl

/-- C5 (witness): a failing initialization (the table already exists) leaves
the database unchanged. -/
theorem claim_C5_witness : (init_database (some [])).2 = some [] :=
  claim_C5.2 (some []) rfl

end PyKanban

namespace PyKanban

/-- C6: `safe_execute_query` never leaves a transaction open that was not
already open (net transaction state is unchanged), does not change whether
the connection is open, runs the statement at most once — success means the
statement ran exactly once on the pre-call contents and committed, failure
means the contents are unchanged — and on invalid SQL (a failing statement)
it rolls back, leaves the contents unchanged and reports the driver error
with the ERROR tag. -/
theorem claim_C6 {α : Type} (q : α → Except String α) (c : SQLiteConn α) :
    ((safe_execute_query q c).2.txn = c.txn) ∧
    ((safe_execute_query q c).2.isOpen = c.isOpen) ∧
    ((safe_execute_query q c).1.success = true →
      ∃ d, q c.db = Except.ok d ∧ (safe_execute_query q c).2.db = d) ∧
    ((safe_execute_query q c).1.success = false →
      (safe_execute_query q c).2.db = c.db) ∧
    (c.isOpen = true → c.txn = none → ∀ e, q c.db = Except.error e →
      (safe_execute_query q c).1.success = false ∧
      (safe_execute_query q c).1.data = QData.status DatabaseStatus.ERROR ∧
      (safe_execute_query q c).1.message = e ∧
      (safe_execute_query q c).2.db = c.db) := by
  obtain ⟨co, cano, cdb, ctxn⟩ := c
  cases co with
  | false =>
    refine ⟨rfl, rfl, ?_, fun _ => rfl, fun h => by cases h⟩
    intro h
    simp [safe_execute_query, begin_transaction] at h
  | true =>
    cases ctxn with
    | some t =>
      refine ⟨rfl, rfl, ?_, fun _ => rfl, fun _ h => by cases h⟩
      intro h
      simp [safe_execute_query, begin_transaction] at h
    | none =>
      cases hq : q cdb with
      | error e =>
        refine ⟨?_, ?_, ?_, ?_, ?_⟩ <;>
          simp [safe_execute_query, begin_transaction, execute_query,
            commit_transaction, rollback_transaction, hq]
      | ok d =>
        refine ⟨?_, ?_, ?_, ?_, ?_⟩ <;>
          simp [safe_execute_query, begin_transaction, execute_query,
            commit_transaction, rollback_transaction, hq]

/-- C6 (witness): a failing statement on an open, idle connection reports
failure and leaves the contents unchanged. -/
theorem claim_C6_witness :
    (safe_execute_query (fun _ : Int => Except.error "near INVALID: syntax error")
      ⟨true, true, 0, none⟩).1.success = false ∧
    (safe_execute_query (fun _ : Int => Except.error "near INVALID: syntax error")
      ⟨true, true, 0, none⟩).2.db = 0 := by
  have h := claim_C6 (fun _ : Int => Except.error "near INVALID: syntax error")
    ⟨true, true, 0, none⟩
  exact ⟨(h.2.2.2.2 rfl rfl "near INVALID: syntax error" rfl).1,
    (h.2.2.2.2 rfl rfl "near INVALID: syntax error" rfl).2.2.2⟩

/-- C7: opening an already-open connection fails (and changes nothing);
closing an already-closed connection fails (and changes nothing); and from a
closed connection to an existing database, open → close → open succeeds at
every step. -/
theorem claim_C7 {α : Type} (c : SQLiteConn α) :
    (c.isOpen = true → (open_db c).1.success = false ∧ (open_db c).2 = c) ∧
    (c.isOpen = false → (close_db c).1.success = false ∧ (close_db c).2 = c) ∧
    (c.isOpen = false → c.canOpen = true →
      (open_db c).1.success = true ∧
      (close_db (open_db c).2).1.success = true ∧
      (open_db (close_db (open_db c).2).2).1.success = true) := by
  obtain ⟨co, cano, cdb, ctxn⟩ := c
  cases co with
  | true =>
    refine ⟨fun _ => ⟨rfl, rfl⟩, ?_, ?_⟩
    · intro h; cases h
    · intro h _; cases h
  | false =>
    refine ⟨?_, fun _ => ⟨rfl, rfl⟩, ?_⟩
    · intro h; cases h
    · intro _ hcan
      cases cano with
      | false => cases hcan
      | true => exact ⟨rfl, rfl, rfl⟩

/-- C7 (witness): the three clauses at concrete connections. -/
theorem claim_C7_witness :
    ((open_db (⟨true, true, 0, none⟩ : SQLiteConn Int)).1.success = false) ∧
    ((close_db (⟨false, true, 0, none⟩ : SQLiteConn Int)).1.success = false) ∧
    ((open_db (⟨false, true, 0, none⟩ : SQLiteConn Int)).1.success = true) :=
  ⟨((claim_C7 (⟨true, true, 0, none⟩ : SQLiteConn Int)).1 rfl).1,
   ((claim_C7 (⟨false, true, 0, none⟩ : SQLiteConn Int)).2.1 rfl).1,
   ((claim_C7 (⟨false, true, 0, none⟩ : SQLiteConn Int)).2.2 rfl rfl).1⟩

end PyKanban

namespace PyKanban

/-- C8: for every drag gesture over the column container — drag enter with a
non-fixed column name, then any in-memory `column_order` computed during the
drag — the drop handler writes nothing to the persisted `Columns` table
(identical before and after), discards the computed order by restoring the
order saved at drag enter, and clears the dragged-column reference. -/
theorem claim_C8 (ui : DragUI) (table : DBState) (nm : String)
    (computed : List (String × Int))
    (h1 : nm ≠ "Ready to Start") (h2 : nm ≠ "Complete") :
    ((dropEvent { dragEnterEvent ui (some nm) with column_order := computed }
        table).2 = table) ∧
    ((dropEvent { dragEnterEvent ui (some nm) with column_order := computed }
        table).1.column_order = ui.column_order) ∧
    ((dropEvent { dragEnterEvent ui (some nm) with column_order := computed }
        table).1.dragged_column = none) := by
  have hb : (nm == "Ready to Start" || nm == "Complete") = false := by
    simp [h1, h2]
  refine ⟨rfl, ?_, rfl⟩
  simp [dragEnterEvent, dropEvent, hb]

/-- C8 (witness): a concrete gesture: the computed order is discarded and the
table untouched. -/
theorem claim_C8_witness :
    ((dropEvent
        { dragEnterEvent ⟨[("In Progress", 2)], none, none⟩ (some "In Progress")
          with column_order := [("In Progress", 5)] } initRows).2 = initRows) ∧
    ((dropEvent
        { dragEnterEvent ⟨[("In Progress", 2)], none, none⟩ (some "In Progress")
          with column_order := [("In Progress", 5)] } initRows).1.column_order =
      [("In Progress", 2)]) :=
  ⟨(claim_C8 ⟨[("In Progress", 2)], none, none⟩ initRows "In Progress"
      [("In Progress", 5)] (by decide) (by decide)).1,
   (claim_C8 ⟨[("In Progress", 2)], none, none⟩ initRows "In Progress"
      [("In Progress", 5)] (by decide) (by decide)).2.1⟩

/-- The contents of a `max?` hit: membership and an upper bound. -/
theorem max?_spec {l : List Int} {m : Int} (h : l.max? = some m) :
    m ∈ l ∧ ∀ a ∈ l, a ≤ m := by
  haveI : Std.Antisymm (α := Int) (· ≤ ·) := ⟨le_antisymm⟩
  rw [List.max?_eq_some_iff] at h
  · exact h
  all_goals simp [le_total]

/-- C9: `reorder_column` validates against `MAX("Order")` over all rows while
`get_max_order` computes the maximum over active rows only; in any state
where a soft-deleted row's stale order exceeds the active maximum, the two
values differ (the all-rows bound is strictly larger), and every `new_order`
that `reorder_column` accepts is judged against that all-rows bound, not the
active maximum. -/
theorem claim_C9 {s : DBState} {r : KRow} (hr : r ∈ s) (hdel : r.deleted = true)
    (hgt : get_max_order_val s < r.order) :
    ∃ m, maxOrderAllOpt s = some m ∧ get_max_order_val s < m ∧
      (get_max_order s).data = QData.res (get_max_order_val s) ∧
      ∀ nm k, (reorder_column s nm k).1.success = true → 1 < k ∧ k < m := by
  cases hm : maxOrderAllOpt s with
  | none =>
    exfalso
    unfold maxOrderAllOpt at hm
    rw [List.max?_eq_none_iff] at hm
    have : r.order ∈ ordersOf s := List.mem_map_of_mem _ hr
    rw [hm] at this
    cases this
  | some m =>
    have hspec := max?_spec (l := ordersOf s) (m := m) hm
    have hrm : r.order ≤ m := hspec.2 _ (List.mem_map_of_mem _ hr)
    refine ⟨m, rfl, by omega, rfl, ?_⟩
    intro nm k hsuc
    obtain ⟨_, hk1, ⟨m2, hm2, hkm2⟩, _, _⟩ := reorder_success hsuc
    have hm2m : m2 = m := by
      rw [hm] at hm2
      exact (Option.some.inj hm2).symm
    exact ⟨hk1, by omega⟩

/-- C9 (witness): one active row at order 1 and a soft-deleted row at stale
order 5: the all-rows bound is 5, the active maximum 1. -/
theorem claim_C9_witness :
    maxOrderAllOpt
      [⟨"Ready to Start", 1, 0, "#b8daff", "#000000", false⟩,
       ⟨"Old", 5, 0, "#b8daff", "#000000", true⟩] = some 5 ∧
    get_max_order_val
      [⟨"Ready to Start", 1, 0, "#b8daff", "#000000", false⟩,
       ⟨"Old", 5, 0, "#b8daff", "#000000", true⟩] < 5 := by
  obtain ⟨m, hm, hlt, _, _⟩ :=
    @claim_C9
      [⟨"Ready to Start", 1, 0, "#b8daff", "#000000", false⟩,
       ⟨"Old", 5, 0, "#b8daff", "#000000", true⟩]
      ⟨"Old", 5, 0, "#b8daff", "#000000", true⟩ (by decide) rfl (by decide)
  have hm5 : m = (5 : Int) := by
    have h5 : maxOrderAllOpt
        [⟨"Ready to Start", 1, 0, "#b8daff", "#000000", false⟩,
         ⟨"Old", 5, 0, "#b8daff", "#000000", true⟩] = some 5 := by decide
    rw [h5] at hm
    exact (Option.some.inj hm).symm
  rw [hm5] at hm hlt
  exact ⟨hm, hlt⟩

end PyKanban

namespace PyKanban

/-- Mapping a function that fixes every member of a list is the identity. -/
theorem map_eq_self_of_forall {l : DBState} {f : KRow → KRow}
    (h : ∀ x ∈ l, f x = x) : l.map f = l := by
  induction l with
  | nil => rfl
  | cons y ys ih =>
    rw [List.map_cons, h y (List.mem_cons_self y ys),
      ih (fun x hx => h x (List.mem_cons_of_mem y hx))]

/-- C10: for every database state and a valid `color_type` in
{ColumnColor, TextColor}, `update_column_color` succeeds — even when no
column of that name exists, in which case the state is unchanged — and when
rows of that name exist it rewrites every one of them, soft-deleted rows
included. -/
theorem claim_C10 (s : DBState) (nm t color : String)
    (ht : t = "ColumnColor" ∨ t = "TextColor") :
    (update_column_color s nm t color).1.success = true ∧
    (update_column_color s nm t color).2 = s.map (colorUpd nm t color) ∧
    (∀ x ∈ s, x.name = nm →
      colorUpd nm t color x ∈ (update_column_color s nm t color).2) ∧
    ((∀ x ∈ s, x.name ≠ nm) → (update_column_color s nm t color).2 = s) := by
  have ht' : (t == "ColumnColor" || t == "TextColor") = true := by
    rcases ht with h | h <;> simp [h]
  obtain ⟨hsucc, hstate⟩ := update_color_state ht'
  refine ⟨hsucc, hstate, ?_, ?_⟩
  · intro x hx _
    rw [hstate]
    exact List.mem_map_of_mem _ hx
  · intro hall
    rw [hstate]
    exact map_eq_self_of_forall (fun x hx => by simp [colorUpd, hall x hx])

/-- C10 (witness): recoloring a non-existent column succeeds and leaves the
initialized board unchanged. -/
theorem claim_C10_witness :
    (update_column_color initRows "Review" "ColumnColor" "#ffffff").1.success = true ∧
    (update_column_color initRows "Review" "ColumnColor" "#ffffff").2 = initRows :=
  ⟨(claim_C10 initRows "Review" "ColumnColor" "#ffffff" (Or.inl rfl)).1,
   (claim_C10 initRows "Review" "ColumnColor" "#ffffff" (Or.inl rfl)).2.2.2
     (by decide)⟩

end PyKanban
